import Mathlib

/-!
Verification of the reconciliation core of `mygis_core/collab.py`.

The Python code is shallowly embedded:
* Python attribute values (`None`, ints, strings) become the inductive `PyVal`.
* A `collections.Counter` over value tuples becomes an insertion-ordered
  association list `List (Tup × Nat)`; `Counter.get(key, 0)` becomes
  `counterGet`, `counter[values] += 1` becomes `counterAdd`.
* A Python `dict` built key by key (later assignment wins, first insertion
  position kept) becomes `pyDict` over association lists.
* The remote feature layer is modelled by the record `RecLayer`: its `rows`
  field is the sequence of attribute dictionaries the server would return for
  the comparison's where-clause, in server order; `query(result_offset=...,
  result_record_count=...)` returns the corresponding slice of that sequence
  and `query(return_all_records=True)` returns all of it.
-/

/-- A Python attribute value as it appears in feature attributes:
`None`, an integer, or a string. -/
inductive PyVal where
  | none : PyVal
  | int : Int → PyVal
  | str : String → PyVal
deriving DecidableEq, Repr

/-- A projected row: the tuple of values over the agreed field order
(`tuple(attrs.get(name) for name in clean_fields)`). -/
abbrev Tup := List PyVal

/-- An attribute dictionary (`feature.attributes`). -/
abbrev AttrDict := List (String × PyVal)

/-- `attrs.get(name)`: value of the first entry with the given key,
`None` when absent. -/
def attrGet (attrs : AttrDict) (name : String) : PyVal :=
  ((attrs.find? (fun p => p.1 = name)).map (fun p => p.2)).getD PyVal.none

/-- A `collections.Counter` over tuples: insertion-ordered association list. -/
abbrev FCounter := List (Tup × Nat)

/-- `counter.get(key, 0)`. -/
def counterGet (c : FCounter) (t : Tup) : Nat :=
  ((c.find? (fun p => p.1 = t)).map (fun p => p.2)).getD 0

/-- `counter[values] += 1`: increment in place when the key is present,
append `(values, 1)` otherwise. -/
def counterAdd (c : FCounter) (t : Tup) : FCounter :=
  if c.any (fun p => p.1 = t) then
    c.map (fun p => if p.1 = t then (p.1, p.2 + 1) else p)
  else
    c ++ [(t, 1)]

/-- The keys of a counter, in insertion order. -/
def counterKeys (c : FCounter) : List Tup := c.map (fun p => p.1)

/-- Well-formedness every `Counter` built by the code enjoys:
distinct keys and strictly positive counts. -/
def CounterWF (c : FCounter) : Prop :=
  (counterKeys c).Nodup ∧ ∀ p ∈ c, 0 < p.2

/-- One step of Python `dict` construction: `d[k] = v` keeps the first
insertion position of `k` and overwrites its value, appending when new. -/
def pyDictInsert (d : List (String × PyVal)) (k : String) (v : PyVal) :
    List (String × PyVal) :=
  if d.any (fun p => p.1 = k) then
    d.map (fun p => if p.1 = k then (k, v) else p)
  else
    d ++ [(k, v)]

/-- `dict(pairs)`: fold the pairs into an empty dict. -/
def pyDict (ps : List (String × PyVal)) : List (String × PyVal) :=
  ps.foldl (fun d p => pyDictInsert d p.1 p.2) []

/-- One entry of the `host_only` / `guest_only` output of `_counter_delta`:
`{"count": ..., "attributes": dict(zip(field_names, key))}`. -/
structure DeltaEntry where
  count : Nat
  attributes : List (String × PyVal)
deriving DecidableEq, Repr

/-- `_counter_delta(host_counter, guest_counter, field_names)`:
for every host key whose count exceeds the guest count emit a host-only
entry with the difference and the reconstructed attribute dict, iterating
the host counter in insertion order; symmetrically for guest-only. -/
def counter_delta (host_counter guest_counter : FCounter)
    (field_names : List String) : List DeltaEntry × List DeltaEntry :=
  ((host_counter.filter
      (fun p => counterGet guest_counter p.1 < p.2)).map
      (fun p => { count := p.2 - counterGet guest_counter p.1
                  attributes := pyDict (field_names.zip p.1) }),
   (guest_counter.filter
      (fun p => counterGet host_counter p.1 < p.2)).map
      (fun p => { count := p.2 - counterGet host_counter p.1
                  attributes := pyDict (field_names.zip p.1) }))

/-- `_build_feature_counter`'s accumulation loop:
`for values in rows: counter[values] += 1`, starting from `Counter()`. -/
def buildCounter (rows : List Tup) : FCounter :=
  rows.foldl counterAdd []

/-- Metadata of one field as read from layer properties: `{name, type}`. -/
structure FieldMeta where
  name : Option String
  ftype : Option String
deriving DecidableEq, Repr

/-- The slice of a remote feature layer the reconciliation core reads:
field metadata, the declared special field names, the pagination-support
flag, the attribute rows the server returns for the comparison's
where-clause (in server order), and the result of a count-only query
(`_safe_count`, `None` on failure). -/
structure RecLayer where
  fieldsMeta : Option (List FieldMeta)
  objectIdField : Option String
  globalIdField : Option String
  shapeFieldName : Option String
  geometryField : Option String
  supportsPagination : Bool
  rows : List AttrDict
  totalCount : Option Int
deriving Repr

/-- Python `str.lower()` on the ASCII range of the field names and keys this
code lower-cases (character-wise lower-casing of the underlying data). -/
def pyLower (s : String) : String := ⟨s.data.map Char.toLower⟩

/-- The `auto_ignore_lower` set of `_get_comparable_fields`: lower-cased
declared object-id/global-id/shape/geometry field names (skipping falsy
values) plus the built-in `{shape, shape_length, shape_area}`. -/
def autoIgnoreLower (layer : RecLayer) : List String :=
  ((([layer.objectIdField, layer.globalIdField, layer.shapeFieldName,
      layer.geometryField].filterMap id).filter
      (fun s => s ≠ "")).map pyLower)
    ++ ["shape", "shape_length", "shape_area"]

/-- The `comparable` list of `_get_comparable_fields` before the object-id
fallback: fields kept by the exclusion loop, in metadata order. -/
def filteredComparable (layer : RecLayer) (extra_ignored : List String) :
    List String :=
  match layer.fieldsMeta with
  | Option.none => []
  | some fm =>
    let ignore_lower := extra_ignored.map pyLower
    fm.filterMap (fun f =>
      match f.name with
      | Option.none => Option.none
      | some n =>
        if n = "" then Option.none
        else if (pyLower n) ∈ ignore_lower ∨ (pyLower n) ∈ autoIgnoreLower layer then
          Option.none
        else
          match f.ftype with
          | some t =>
            if (pyLower t) = "esrifieldtypegeometry" then Option.none else some n
          | Option.none => some n)

/-- `_get_comparable_fields(layer, extra_ignored)`: empty when the layer has
no (or empty) field metadata; otherwise the exclusion-filtered field list,
falling back to the declared object-id field alone when the filter removed
everything (and to empty when there is no truthy object-id field). -/
def get_comparable_fields (layer : RecLayer) (extra_ignored : List String) :
    List String :=
  match layer.fieldsMeta with
  | Option.none => []
  | some fm =>
    if fm = [] then []
    else
      let comparable := filteredComparable layer extra_ignored
      if comparable = [] then
        match layer.objectIdField with
        | some oid => if oid = "" then [] else [oid]
        | Option.none => []
      else comparable

/-- The field-cleaning loop of `_iter_layer_feature_tuples`: drop falsy
names and duplicates, keeping first occurrences in order. -/
def cleanFields (field_names : List String) : List String :=
  field_names.foldl
    (fun acc n => if n = "" then acc else if n ∈ acc then acc else acc ++ [n]) []

/-- The paginated query loop of `_iter_layer_feature_tuples`: fetch
`chunk_size` rows at `offset`, stop on an empty or short page, otherwise
advance the offset by the page length. -/
def pagedRows (rows : List AttrDict) (chunk_size offset : Nat) : List AttrDict :=
  if ((rows.drop offset).take chunk_size).length = 0 then []
  else if ((rows.drop offset).take chunk_size).length < chunk_size then
    (rows.drop offset).take chunk_size
  else
    (rows.drop offset).take chunk_size ++
      pagedRows rows chunk_size (offset + ((rows.drop offset).take chunk_size).length)
termination_by rows.length - offset
decreasing_by
  have h1 : ((rows.drop offset).take chunk_size).length ≤ rows.length - offset := by
    simp [List.length_take, List.length_drop]
  omega

/-- `_iter_layer_feature_tuples(layer, field_names, where, chunk_size)` as a
list: nothing for an empty (cleaned) field list; otherwise the projection of
each fetched row to the tuple of its values over the cleaned field order,
fetched page by page when the layer supports pagination and `chunk_size > 0`,
in a single unbounded query otherwise. -/
def iterTuples (layer : RecLayer) (field_names : List String) (chunk_size : Nat) :
    List Tup :=
  if field_names = [] then []
  else
    let clean_fields := cleanFields field_names
    if clean_fields = [] then []
    else
      let feats :=
        if layer.supportsPagination ∧ 0 < chunk_size then
          pagedRows layer.rows chunk_size 0
        else layer.rows
      feats.map (fun attrs => clean_fields.map (fun n => attrGet attrs n))

/-- `_build_feature_counter(layer, canonical_order, field_map, where,
chunk_size)`: stream the tuples over the mapped actual field names into a
fresh counter. -/
def build_feature_counter (layer : RecLayer) (canonical_order : List String)
    (field_map : String → String) (chunk_size : Nat) : FCounter :=
  buildCounter (iterTuples layer (canonical_order.map field_map) chunk_size)

/-- Python `dict` lookup on an association list built by repeated
assignment: the last binding of a key wins. -/
def dictGetLast {α β : Type} [DecidableEq α] (l : List (α × β)) (k : α) :
    Option β :=
  (l.reverse.find? (fun p => p.1 = k)).map (fun p => p.2)

/-- The guest-field resolution of one host field inside
`compare_feature_service_records`: look the lower-cased host name up in
`guest_lookup = {f.lower(): f for f in guest_fields}` (a dict comprehension,
so the last guest field with a given lower-cased name wins) and treat a
falsy result as no match. -/
def lookupGuestField (guest_fields : List String) (host_field : String) :
    Option String :=
  match dictGetLast (guest_fields.map (fun f => ((pyLower f), f)))
      (pyLower host_field) with
  | some gf => if gf = "" then Option.none else some gf
  | Option.none => Option.none

/-- The `fields_info` list: one `(lower_name, host_field, guest_field)`
triple per host field that has a guest match, in host-field order. -/
def fieldsInfo (host_fields guest_fields : List String) :
    List (String × String × String) :=
  host_fields.filterMap (fun hf =>
    (lookupGuestField guest_fields hf).map (fun gf => (pyLower hf, hf, gf)))

/-- The `missing_on_guest` list: host fields with no guest match, in order. -/
def missingFields (host_fields guest_fields : List String) : List String :=
  host_fields.filter (fun hf => lookupGuestField guest_fields hf = Option.none)

/-- One layer/table entry of the record-comparison result. Each optional
component models a dict key that is present in some status branches and
absent in others. (The diagnostic `kind`/`key`/`name` echo keys and the
per-entry `where`/`ignored_fields` echo keys are not modelled.) -/
structure RecordEntry where
  status : String
  message : Option String := Option.none
  missing_fields_on_guest : Option (List String) := Option.none
  fields_compared : Option (List String) := Option.none
  host_count : Option Int := Option.none
  guest_count : Option Int := Option.none
  host_only : Option (List DeltaEntry) := Option.none
  guest_only : Option (List DeltaEntry) := Option.none
deriving DecidableEq, Repr

/-- The per-layer body of `compare_feature_service_records` for a layer
present on both sides and not filtered out: compute both comparable field
lists, match host fields on the guest (case-insensitively), fail with
`error` when any host field is missing, report `skipped` when nothing
matched, otherwise build both counters over the common field order and
diff them. The `host_field_map[name]` dict lookups are total on the names
actually used; `.getD` supplies a never-reached default. -/
def compareLayerRecords (host_layer guest_layer : RecLayer)
    (ignore_fields_set : List String) (chunk_size_val : Nat) : RecordEntry :=
  let host_fields := get_comparable_fields host_layer ignore_fields_set
  let guest_fields := get_comparable_fields guest_layer ignore_fields_set
  let fields_info := fieldsInfo host_fields guest_fields
  let missing_on_guest := missingFields host_fields guest_fields
  if missing_on_guest ≠ [] then
    { status := "error"
      message := some "Host fields missing on guest layer"
      missing_fields_on_guest := some missing_on_guest }
  else if fields_info = [] then
    { status := "skipped"
      message := some "No comparable fields available after filtering"
      host_count := host_layer.totalCount
      guest_count := guest_layer.totalCount
      host_only := some []
      guest_only := some [] }
  else
    let field_order := fields_info.map (fun i => i.1)
    let host_field_map := fun n =>
      (dictGetLast (fields_info.map (fun i => (i.1, i.2.1))) n).getD n
    let guest_field_map := fun n =>
      (dictGetLast (fields_info.map (fun i => (i.1, i.2.2))) n).getD n
    let result_field_names := field_order.map host_field_map
    let host_counter :=
      build_feature_counter host_layer field_order host_field_map chunk_size_val
    let guest_counter :=
      build_feature_counter guest_layer field_order guest_field_map chunk_size_val
    let deltas := counter_delta host_counter guest_counter result_field_names
    { status := if deltas.1 = [] ∧ deltas.2 = [] then "ok" else "mismatch"
      fields_compared := some result_field_names
      host_count := some ((host_counter.map (fun p => (p.2 : Int))).sum)
      guest_count := some ((guest_counter.map (fun p => (p.2 : Int))).sum)
      host_only := some deltas.1
      guest_only := some deltas.2 }

/-- The per-entry status expression of `compare_feature_service_items` for a
layer present on both sides:
`"ok" if (hc == gc and (ht is None or gt is None or ht == gt)) else
"mismatch"`, where a failed count or timestamp fetch has degraded the
operand to `None`. -/
def compare_entry_status (hc gc ht gt : Option Int) : String :=
  if hc = gc ∧ (ht = Option.none ∨ gt = Option.none ∨ ht = gt) then "ok"
  else "mismatch"

/-- A content item as read by the pairing resolver: id, title, type and the
raw properties dict holding any origin/source-item metadata. -/
structure PortalItem where
  itemId : String
  title : String
  itype : String
  props : List (String × String)
deriving DecidableEq, Repr

/-- The recognized origin/source-item property names, in probe order. -/
def originKeys : List String :=
  ["originItemID", "originItemId", "sourceItemID", "sourceItemId",
   "sourceitemid", "source_service_item_id"]

/-- `_extract_origin_host_id(item)`: the first truthy value among the
recognized origin property names, `None` when there is none. -/
def extract_origin_host_id (it : PortalItem) : Option String :=
  originKeys.findSome? (fun k =>
    match dictGetLast it.props k with
    | some v => if v = "" then Option.none else some v
    | Option.none => Option.none)

/-- `guest_by_origin`: guest items keyed by their origin id (dict build,
last one wins on duplicate origin ids). -/
def guestByOrigin (gs : List PortalItem) : List (String × PortalItem) :=
  gs.filterMap (fun gi => (extract_origin_host_id gi).map (fun o => (o, gi)))

/-- `guest_by_key`: guest items keyed by `(title, type)` (dict build, last
one wins on duplicate keys). -/
def guestByKey (gs : List PortalItem) : List ((String × String) × PortalItem) :=
  gs.map (fun gi => ((gi.title, gi.itype), gi))

/-- The per-host-item body of the pairing loop: an origin-id match wins,
otherwise fall back to the `(title, type)` map; no match, no pair. -/
def resolveHostItem (guest_by_origin : List (String × PortalItem))
    (guest_by_key : List ((String × String) × PortalItem)) (hi : PortalItem) :
    Option (PortalItem × PortalItem) :=
  match dictGetLast guest_by_origin hi.itemId with
  | some gi => some (hi, gi)
  | Option.none =>
    (dictGetLast guest_by_key (hi.title, hi.itype)).map (fun gi => (hi, gi))

/-- `pair_items_in_groups` after both group listings succeeded: optional
strict filtering to Feature Service items, then the two guest maps, then
one resolution attempt per host item in order. -/
def pair_items_in_groups (host_items guest_items : List PortalItem)
    (strict_type : Bool) : List (PortalItem × PortalItem) :=
  let hs := if strict_type then
      host_items.filter (fun i => i.itype = "Feature Service")
    else host_items
  let gs := if strict_type then
      guest_items.filter (fun i => i.itype = "Feature Service")
    else guest_items
  hs.filterMap (resolveHostItem (guestByOrigin gs) (guestByKey gs))

/-- A value of the top-level record-comparison result dict. -/
inductive RValue where
  | str : String → RValue
  | optStr : Option String → RValue
  | int : Int → RValue
  | strList : List String → RValue
  | entries : List RecordEntry → RValue
deriving Repr

/-- `where_clause = where or "1=1"`. -/
def whereClauseOf (w : String) : String := if w = "" then "1=1" else w

/-- The top-level result dict built at the end of
`compare_feature_service_records`: the fixed keys (`where` and `chunk_size`
among them) plus `ignored_fields` when the ignore set is non-empty and
`layer_keys` when a truthy layer-key list was passed. -/
def record_result_payload (host_item_id guest_item_id : String)
    (title host_url guest_url : Option String) (where_clause : String)
    (chunk_size_val : Nat) (ignore_fields_set : List String)
    (layer_keys : Option (List String))
    (layer_results table_results : List RecordEntry)
    (overall_status : String) : List (String × RValue) :=
  [("status", RValue.str overall_status),
   ("host_item_id", RValue.str host_item_id),
   ("guest_item_id", RValue.str guest_item_id),
   ("title", RValue.optStr title),
   ("host_url", RValue.optStr host_url),
   ("guest_url", RValue.optStr guest_url),
   ("where", RValue.str where_clause),
   ("layers", RValue.entries layer_results),
   ("tables", RValue.entries table_results),
   ("chunk_size", RValue.int chunk_size_val)]
  ++ (if ignore_fields_set ≠ [] then
        [("ignored_fields",
          RValue.strList (ignore_fields_set.mergeSort (fun a b => decide (a ≤ b))))]
      else [])
  ++ (match layer_keys with
      | some ks => if ks ≠ [] then [("layer_keys", RValue.strList ks)] else []
      | Option.none => [])

/-- The key set of the top-level record-comparison result dict. -/
def recordResultKeys (ignore_fields_set : List String)
    (layer_keys : Option (List String)) : List String :=
  (record_result_payload "" "" Option.none Option.none Option.none
    (whereClauseOf "1=1") 2000 ignore_fields_set layer_keys [] [] "ok").map
    (fun p => p.1)

theorem counterKeys_counterAdd (c : FCounter) (t : Tup) :
    counterKeys (counterAdd c t) =
      if t ∈ counterKeys c then counterKeys c else counterKeys c ++ [t] := by
  by_cases h : t ∈ counterKeys c
  · rw [if_pos h]
    have hany : c.any (fun p => decide (p.1 = t)) = true := by
      rw [List.any_eq_true]
      obtain ⟨p, hp, hpt⟩ := List.mem_map.mp h
      exact ⟨p, hp, by simp [hpt]⟩
    unfold counterAdd
    rw [if_pos hany]
    unfold counterKeys
    rw [List.map_map]
    apply List.map_congr_left
    intro p _
    by_cases hp : p.1 = t <;> simp [hp]
  · rw [if_neg h]
    have hany : ¬ c.any (fun p => decide (p.1 = t)) = true := by
      rw [List.any_eq_true]
      rintro ⟨p, hp, hpt⟩
      simp only [decide_eq_true_eq] at hpt
      exact h (List.mem_map.mpr ⟨p, hp, hpt⟩)
    unfold counterAdd
    rw [if_neg hany]
    simp [counterKeys]

theorem mem_counterKeys_counterAdd (c : FCounter) (t s : Tup) :
    s ∈ counterKeys (counterAdd c t) ↔ s ∈ counterKeys c ∨ s = t := by
  rw [counterKeys_counterAdd]
  by_cases h : t ∈ counterKeys c
  · rw [if_pos h]
    constructor
    · exact Or.inl
    · rintro (hs | rfl)
      · exact hs
      · exact h
  · rw [if_neg h]
    simp

theorem nodupKeys_counterAdd (c : FCounter) (t : Tup)
    (h : (counterKeys c).Nodup) : (counterKeys (counterAdd c t)).Nodup := by
  rw [counterKeys_counterAdd]
  by_cases ht : t ∈ counterKeys c
  · rw [if_pos ht]; exact h
  · rw [if_neg ht]
    simpa [List.nodup_append] using ⟨h, ht⟩

theorem pos_counterAdd (c : FCounter) (t : Tup)
    (h : ∀ p ∈ c, 0 < p.2) : ∀ p ∈ counterAdd c t, 0 < p.2 := by
  intro p hp
  unfold counterAdd at hp
  by_cases hany : c.any (fun p => decide (p.1 = t)) = true
  · rw [if_pos hany] at hp
    obtain ⟨q, hq, hqp⟩ := List.mem_map.mp hp
    by_cases hqt : q.1 = t
    · rw [if_pos hqt] at hqp
      rw [← hqp]
      simp
    · rw [if_neg hqt] at hqp
      exact hqp ▸ h q hq
  · rw [if_neg hany] at hp
    rcases List.mem_append.mp hp with hc | hnew
    · exact h p hc
    · simp only [List.mem_singleton] at hnew
      subst hnew
      exact Nat.one_pos

theorem counterGet_counterAdd (c : FCounter) (t s : Tup) :
    counterGet (counterAdd c t) s =
      if s = t then counterGet c s + 1 else counterGet c s := by
  unfold counterAdd
  by_cases hany : c.any (fun p => decide (p.1 = t)) = true
  · rw [if_pos hany]
    unfold counterGet
    rw [List.find?_map]
    have heq : ((fun p : Tup × Nat => decide (p.1 = s)) ∘
        (fun p : Tup × Nat => if p.1 = t then (p.1, p.2 + 1) else p)) =
        (fun p : Tup × Nat => decide (p.1 = s)) := by
      funext p
      by_cases hp : p.1 = t <;> simp [hp]
    rw [heq]
    by_cases hst : s = t
    · subst hst
      rw [if_pos rfl]
      obtain ⟨q, hq, hqs⟩ := List.any_eq_true.mp hany
      simp only [decide_eq_true_eq] at hqs
      have hsome : (c.find? (fun p => decide (p.1 = s))).isSome = true := by
        rw [List.find?_isSome]
        exact ⟨q, hq, by simp [hqs]⟩
      obtain ⟨r, hr⟩ := Option.isSome_iff_exists.mp hsome
      have hrs : r.1 = s := by simpa using List.find?_some hr
      rw [hr]
      simp [hrs]
    · rw [if_neg hst]
      cases hfind : c.find? (fun p => decide (p.1 = s)) with
      | none => simp
      | some r =>
        have hrs : r.1 = s := by simpa using List.find?_some hfind
        have hrt : ¬ r.1 = t := by rw [hrs]; exact hst
        simp [hrt]
  · rw [if_neg hany]
    have hnone : c.find? (fun p => decide (p.1 = t)) = Option.none := by
      rw [List.find?_eq_none]
      intro p hp
      simp only [decide_eq_true_eq]
      intro hpt
      exact hany (List.any_eq_true.mpr ⟨p, hp, by simp [hpt]⟩)
    by_cases hst : s = t
    · subst hst
      rw [if_pos rfl]
      unfold counterGet
      rw [List.find?_append, hnone, Option.none_or]
      simp
    · rw [if_neg hst]
      unfold counterGet
      rw [List.find?_append]
      have htail : List.find? (fun p => decide (p.1 = s)) [(t, 1)] = Option.none := by
        rw [List.find?_eq_none]
        intro p hp
        simp only [List.mem_singleton] at hp
        subst hp
        simp only [decide_eq_true_eq]
        exact fun h' => hst h'.symm
      rw [htail]
      cases c.find? (fun p => decide (p.1 = s)) <;> simp

/-- Occurrence count of a tuple in a row stream. -/
def tupCount (rows : List Tup) (t : Tup) : Nat :=
  rows.countP (fun r => decide (r = t))

theorem counterGet_foldl (rows : List Tup) :
    ∀ (c : FCounter) (t : Tup),
      counterGet (rows.foldl counterAdd c) t = counterGet c t + tupCount rows t := by
  induction rows with
  | nil => simp [tupCount]
  | cons r rs ih =>
    intro c t
    simp only [List.foldl_cons]
    rw [ih, counterGet_counterAdd]
    unfold tupCount
    rw [List.countP_cons]
    by_cases h : t = r
    · subst h
      simp [tupCount]
      omega
    · have hrt : decide (r = t) = false := by
        simpa using fun h' => h h'.symm
      rw [if_neg h, hrt]
      simp [tupCount]

theorem mem_counterKeys_foldl (rows : List Tup) :
    ∀ (c : FCounter) (t : Tup),
      t ∈ counterKeys (rows.foldl counterAdd c) ↔ t ∈ counterKeys c ∨ t ∈ rows := by
  induction rows with
  | nil => simp
  | cons r rs ih =>
    intro c t
    simp only [List.foldl_cons]
    rw [ih, mem_counterKeys_counterAdd, List.mem_cons]
    tauto

theorem counterWF_foldl (rows : List Tup) :
    ∀ c : FCounter, CounterWF c → CounterWF (rows.foldl counterAdd c) := by
  induction rows with
  | nil => exact fun c h => h
  | cons r rs ih =>
    intro c h
    exact ih _ ⟨nodupKeys_counterAdd _ _ h.1, pos_counterAdd _ _ h.2⟩

theorem counterGet_buildCounter (rows : List Tup) (t : Tup) :
    counterGet (buildCounter rows) t = tupCount rows t := by
  unfold buildCounter
  rw [counterGet_foldl]
  simp [counterGet]

theorem counterWF_buildCounter (rows : List Tup) : CounterWF (buildCounter rows) :=
  counterWF_foldl rows [] ⟨List.nodup_nil, by simp⟩

theorem mem_counterKeys_buildCounter (rows : List Tup) (t : Tup) :
    t ∈ counterKeys (buildCounter rows) ↔ t ∈ rows := by
  unfold buildCounter
  rw [mem_counterKeys_foldl]
  simp [counterKeys]

theorem find?_eq_of_mem_nodup :
    ∀ {c : FCounter}, (counterKeys c).Nodup → ∀ {p : Tup × Nat}, p ∈ c →
      c.find? (fun q => decide (q.1 = p.1)) = some p := by
  intro c
  induction c with
  | nil => intro _ p hp; cases hp
  | cons q tl ih =>
    intro h p hp
    have hkeys : counterKeys (q :: tl) = q.1 :: counterKeys tl := rfl
    have hnd := List.nodup_cons.mp (hkeys ▸ h)
    rcases List.mem_cons.mp hp with rfl | htl
    · simp [List.find?_cons]
    · have hq : ¬ q.1 = p.1 := by
        intro hqp
        have hmem : p.1 ∈ counterKeys tl := List.mem_map.mpr ⟨p, htl, rfl⟩
        exact hnd.1 (hqp ▸ hmem)
      have hdec : decide (q.1 = p.1) = false := by simpa using hq
      rw [List.find?_cons, hdec]
      exact ih hnd.2 htl

theorem mem_counter_iff (c : FCounter) (hW : CounterWF c) (p : Tup × Nat) :
    p ∈ c ↔ p.1 ∈ counterKeys c ∧ p.2 = counterGet c p.1 := by
  constructor
  · intro hp
    refine ⟨List.mem_map.mpr ⟨p, hp, rfl⟩, ?_⟩
    unfold counterGet
    rw [find?_eq_of_mem_nodup hW.1 hp]
    rfl
  · rintro ⟨hk, hv⟩
    obtain ⟨q, hq, hq1⟩ := List.mem_map.mp hk
    have hfind := find?_eq_of_mem_nodup hW.1 hq
    rw [hq1] at hfind
    unfold counterGet at hv
    rw [hfind] at hv
    simp at hv
    have hpq : p = q := by
      cases p
      cases q
      simp only at hq1 hv
      simp [hq1, hv]
    exact hpq ▸ hq

theorem mem_counterKeys_of_get_pos (c : FCounter) (t : Tup)
    (h : 0 < counterGet c t) : t ∈ counterKeys c := by
  by_contra hmem
  have hnone : c.find? (fun p => decide (p.1 = t)) = Option.none := by
    rw [List.find?_eq_none]
    intro p hp
    simp only [decide_eq_true_eq]
    intro h'
    exact hmem (List.mem_map.mpr ⟨p, hp, h'⟩)
  unfold counterGet at h
  rw [hnone] at h
  simp at h

theorem mem_buildCounter_iff (rows : List Tup) (p : Tup × Nat) :
    p ∈ buildCounter rows ↔ p.1 ∈ rows ∧ p.2 = tupCount rows p.1 := by
  rw [mem_counter_iff _ (counterWF_buildCounter rows),
    mem_counterKeys_buildCounter, counterGet_buildCounter]

theorem buildCounter_perm (r1 r2 : List Tup) (h : r1.Perm r2) :
    (buildCounter r1).Perm (buildCounter r2) := by
  have n1 : (buildCounter r1).Nodup :=
    List.Nodup.of_map (fun p : Tup × Nat => p.1) (counterWF_buildCounter r1).1
  have n2 : (buildCounter r2).Nodup :=
    List.Nodup.of_map (fun p : Tup × Nat => p.1) (counterWF_buildCounter r2).1
  rw [List.perm_ext_iff_of_nodup n1 n2]
  intro p
  rw [mem_buildCounter_iff, mem_buildCounter_iff, h.mem_iff]
  unfold tupCount
  rw [h.countP_eq]


theorem foldl_pyDictInsert_of_disjoint :
    ∀ (ps acc : List (String × PyVal)),
      (ps.map (fun p => p.1)).Nodup →
      (∀ k ∈ ps.map (fun p => p.1), ¬ k ∈ acc.map (fun p => p.1)) →
      ps.foldl (fun d p => pyDictInsert d p.1 p.2) acc = acc ++ ps := by
  intro ps
  induction ps with
  | nil => intro acc _ _; simp
  | cons p tl ih =>
    intro acc hnd hdis
    simp only [List.foldl_cons]
    have hmem : ¬ p.1 ∈ acc.map (fun q => q.1) := hdis p.1 (by simp)
    have hins : pyDictInsert acc p.1 p.2 = acc ++ [p] := by
      unfold pyDictInsert
      have hany : ¬ acc.any (fun q => decide (q.1 = p.1)) = true := by
        rw [List.any_eq_true]
        rintro ⟨q, hq, hq1⟩
        simp only [decide_eq_true_eq] at hq1
        exact hmem (List.mem_map.mpr ⟨q, hq, hq1⟩)
      rw [if_neg hany]
    rw [hins]
    rw [List.map_cons] at hnd
    have hnd' := List.nodup_cons.mp hnd
    have hdis' : ∀ k ∈ tl.map (fun q => q.1), ¬ k ∈ (acc ++ [p]).map (fun q => q.1) := by
      intro k hk hmem'
      rw [List.map_append, List.mem_append] at hmem'
      rcases hmem' with hka | hkp
      · exact hdis k (by simp [hk]) hka
      · simp only [List.map_cons, List.map_nil, List.mem_singleton] at hkp
        exact hnd'.1 (hkp ▸ hk)
    rw [ih (acc ++ [p]) hnd'.2 hdis']
    simp

theorem pyDict_of_nodupKeys (ps : List (String × PyVal))
    (h : (ps.map (fun p => p.1)).Nodup) : pyDict ps = ps := by
  unfold pyDict
  rw [foldl_pyDictInsert_of_disjoint ps [] h (by simp)]
  simp

theorem pyDict_zip_eq (names : List String) (t : Tup) (hnd : names.Nodup)
    (hlen : t.length = names.length) :
    pyDict (names.zip t) = names.zip t := by
  apply pyDict_of_nodupKeys
  have hfst : (names.zip t).map (fun p => p.1) = names := by
    have := List.map_fst_zip names t (le_of_eq hlen.symm)
    simpa using this
  rw [hfst]
  exact hnd

theorem zip_snd_inj (names : List String) (t1 t2 : Tup)
    (h1 : t1.length = names.length) (h2 : t2.length = names.length)
    (h : names.zip t1 = names.zip t2) : t1 = t2 := by
  have e1 : (names.zip t1).map Prod.snd = t1 :=
    List.map_snd_zip names t1 (le_of_eq h1)
  have e2 : (names.zip t2).map Prod.snd = t2 :=
    List.map_snd_zip names t2 (le_of_eq h2)
  rw [← e1, ← e2, h]

theorem pyDict_zip_inj (names : List String) (hnd : names.Nodup) (t1 t2 : Tup)
    (h1 : t1.length = names.length) (h2 : t2.length = names.length)
    (h : pyDict (names.zip t1) = pyDict (names.zip t2)) : t1 = t2 := by
  rw [pyDict_zip_eq names t1 hnd h1, pyDict_zip_eq names t2 hnd h2] at h
  exact zip_snd_inj names t1 t2 h1 h2 h

theorem filter_key_of_nodup (c : FCounter) (h : (counterKeys c).Nodup) (t : Tup) :
    c.filter (fun p => decide (p.1 = t)) =
      if t ∈ counterKeys c then [(t, counterGet c t)] else [] := by
  induction c with
  | nil => simp [counterKeys]
  | cons q tl ih =>
    have hkeys : counterKeys (q :: tl) = q.1 :: counterKeys tl := rfl
    have hnd := List.nodup_cons.mp (hkeys ▸ h)
    rw [List.filter_cons]
    by_cases hq : q.1 = t
    · have hdec : decide (q.1 = t) = true := by simpa using hq
      rw [hdec, if_pos rfl]
      have htlnone : tl.filter (fun p => decide (p.1 = t)) = [] := by
        rw [List.filter_eq_nil_iff]
        intro p hp
        simp only [decide_eq_true_eq]
        intro hpt
        exact hnd.1 (hq ▸ hpt ▸ List.mem_map.mpr ⟨p, hp, rfl⟩)
      have hmem : t ∈ counterKeys (q :: tl) := by
        rw [hkeys]
        exact hq ▸ List.mem_cons_self q.1 (counterKeys tl)
      rw [if_pos hmem, htlnone]
      have hget : counterGet (q :: tl) t = q.2 := by
        unfold counterGet
        rw [List.find?_cons, hdec]
        rfl
      rw [hget]
      cases q with
      | mk q1 q2 =>
        simp only at hq
        simp [hq]
    · have hdec : decide (q.1 = t) = false := by simpa using hq
      rw [hdec]
      simp only [Bool.false_eq_true, if_false]
      have hget : counterGet (q :: tl) t = counterGet tl t := by
        unfold counterGet
        rw [List.find?_cons, hdec]
      have hmemiff : (t ∈ counterKeys (q :: tl)) ↔ t ∈ counterKeys tl := by
        rw [hkeys, List.mem_cons]
        constructor
        · rintro (rfl | h')
          · exact absurd rfl hq
          · exact h'
        · exact Or.inr
      rw [ih hnd.2, hget]
      by_cases hm : t ∈ counterKeys tl
      · rw [if_pos hm, if_pos (hmemiff.mpr hm)]
      · rw [if_neg hm, if_neg (fun h' => hm (hmemiff.mp h'))]


theorem delta_filter_attr (h g : FCounter) (names : List String)
    (hW : (counterKeys h).Nodup) (hnd : names.Nodup)
    (hlen : ∀ s ∈ counterKeys h, s.length = names.length)
    (t : Tup) (ht : t.length = names.length) :
    ((h.filter (fun p => decide (counterGet g p.1 < p.2))).map
        (fun p => DeltaEntry.mk (p.2 - counterGet g p.1)
          (pyDict (names.zip p.1)))).filter
        (fun e => decide (e.attributes = pyDict (names.zip t))) =
      if t ∈ counterKeys h ∧ counterGet g t < counterGet h t then
        [DeltaEntry.mk (counterGet h t - counterGet g t)
          (pyDict (names.zip t))]
      else [] := by
  rw [List.filter_map, List.filter_filter]
  have hcongr : ∀ p ∈ h,
      (((fun e : DeltaEntry => decide (e.attributes = pyDict (names.zip t))) ∘
          (fun p : Tup × Nat => DeltaEntry.mk (p.2 - counterGet g p.1)
            (pyDict (names.zip p.1)))) p &&
        decide (counterGet g p.1 < p.2)) =
      (decide (counterGet g p.1 < p.2) && decide (p.1 = t)) := by
    intro p hp
    have hplen : p.1.length = names.length :=
      hlen p.1 (List.mem_map.mpr ⟨p, hp, rfl⟩)
    have hdeq : decide (pyDict (names.zip p.1) = pyDict (names.zip t)) =
        decide (p.1 = t) := by
      apply decide_eq_decide.mpr
      constructor
      · exact fun he => pyDict_zip_inj names hnd p.1 t hplen ht he
      · intro he
        rw [he]
    simp only [Function.comp]
    rw [hdeq, Bool.and_comm]
  rw [List.filter_congr hcongr, ← List.filter_filter, filter_key_of_nodup h hW t]
  by_cases hm : t ∈ counterKeys h
  · rw [if_pos hm, List.filter_cons]
    by_cases hlt : counterGet g t < counterGet h t
    · have hdec : decide (counterGet g (t, counterGet h t).1 <
          (t, counterGet h t).2) = true := by
        simpa using hlt
      rw [hdec, if_pos rfl, if_pos ⟨hm, hlt⟩]
      simp
    · have hdec : decide (counterGet g (t, counterGet h t).1 <
          (t, counterGet h t).2) = false := by
        simpa using hlt
      rw [hdec]
      simp only [Bool.false_eq_true, if_false]
      rw [if_neg (fun hc => hlt hc.2)]
      simp
  · rw [if_neg hm, if_neg (fun hc => hm hc.1)]
    simp

theorem counterGet_buildCounter_congr (r1 r2 : List Tup) (h : r1.Perm r2) :
    counterGet (buildCounter r1) = counterGet (buildCounter r2) := by
  funext t
  rw [counterGet_buildCounter, counterGet_buildCounter]
  unfold tupCount
  exact h.countP_eq _

theorem counter_delta_fst_empty_iff (h g : FCounter) (names : List String)
    (hWh : CounterWF h) :
    (counter_delta h g names).1 = [] ↔
      ∀ t, counterGet h t ≤ counterGet g t := by
  unfold counter_delta
  simp only [List.map_eq_nil_iff, List.filter_eq_nil_iff, decide_eq_true_eq]
  constructor
  · intro hno t
    by_cases hm : t ∈ counterKeys h
    · have hmem : (t, counterGet h t) ∈ h :=
        (mem_counter_iff h hWh (t, counterGet h t)).mpr ⟨hm, rfl⟩
      have := hno _ hmem
      simpa using this
    · have : counterGet h t = 0 := by
        by_contra hz
        exact hm (mem_counterKeys_of_get_pos h t (Nat.pos_of_ne_zero hz))
      omega
  · intro hle p hp
    have hv := ((mem_counter_iff h hWh p).mp hp).2
    have := hle p.1
    omega

theorem counter_delta_empty_of_get_eq (h g : FCounter) (names : List String)
    (hWh : CounterWF h) (hWg : CounterWF g)
    (heq : ∀ t, counterGet h t = counterGet g t) :
    counter_delta h g names = ([], []) := by
  have h1 : (counter_delta h g names).1 = [] :=
    (counter_delta_fst_empty_iff h g names hWh).mpr (fun t => le_of_eq (heq t))
  have h2 : (counter_delta h g names).2 = [] := by
    have : (counter_delta g h names).1 = [] :=
      (counter_delta_fst_empty_iff g h names hWg).mpr
        (fun t => le_of_eq (heq t).symm)
    exact this
  rw [Prod.ext_iff]
  exact ⟨h1, h2⟩

/-- C1: over well-formed counters whose keys match the field arity, the
delta emits, for each tuple with host count exceeding guest count, exactly
one host-only entry with count `host - guest` and the attribute dict
reconstructing the tuple, and no guest-only entry; symmetrically for
guest-only; tuples with equal counts produce no entry on either side. In
particular host count 3 vs guest count 1 yields exactly
`([{count: 2, attributes: {ID: 1, NAME: "a"}}], [])`. -/
theorem counter_delta_entries_exact (host_counter guest_counter : FCounter)
    (field_names : List String)
    (hWh : CounterWF host_counter) (hWg : CounterWF guest_counter)
    (hnd : field_names.Nodup)
    (hlen : ∀ s ∈ counterKeys host_counter ++ counterKeys guest_counter,
      s.length = field_names.length) :
    (∀ t : Tup, t.length = field_names.length →
      ((counterGet guest_counter t < counterGet host_counter t →
        (counter_delta host_counter guest_counter field_names).1.filter
            (fun e => decide (e.attributes = pyDict (field_names.zip t))) =
          [DeltaEntry.mk
            (counterGet host_counter t - counterGet guest_counter t)
            (pyDict (field_names.zip t))] ∧
        (counter_delta host_counter guest_counter field_names).2.filter
            (fun e => decide (e.attributes = pyDict (field_names.zip t))) = []) ∧
      (counterGet host_counter t < counterGet guest_counter t →
        (counter_delta host_counter guest_counter field_names).2.filter
            (fun e => decide (e.attributes = pyDict (field_names.zip t))) =
          [DeltaEntry.mk
            (counterGet guest_counter t - counterGet host_counter t)
            (pyDict (field_names.zip t))] ∧
        (counter_delta host_counter guest_counter field_names).1.filter
            (fun e => decide (e.attributes = pyDict (field_names.zip t))) = []) ∧
      (counterGet host_counter t = counterGet guest_counter t →
        (counter_delta host_counter guest_counter field_names).1.filter
            (fun e => decide (e.attributes = pyDict (field_names.zip t))) = [] ∧
        (counter_delta host_counter guest_counter field_names).2.filter
            (fun e => decide (e.attributes = pyDict (field_names.zip t))) = []))) ∧
    counter_delta [([PyVal.int 1, PyVal.str "a"], 3)]
        [([PyVal.int 1, PyVal.str "a"], 1)] ["ID", "NAME"] =
      ([DeltaEntry.mk 2 [("ID", PyVal.int 1), ("NAME", PyVal.str "a")]], []) := by
  constructor
  · intro t ht
    have hlenH : ∀ s ∈ counterKeys host_counter, s.length = field_names.length :=
      fun s hs => hlen s (List.mem_append.mpr (Or.inl hs))
    have hlenG : ∀ s ∈ counterKeys guest_counter, s.length = field_names.length :=
      fun s hs => hlen s (List.mem_append.mpr (Or.inr hs))
    have hhost := delta_filter_attr host_counter guest_counter field_names
      hWh.1 hnd hlenH t ht
    have hguest := delta_filter_attr guest_counter host_counter field_names
      hWg.1 hnd hlenG t ht
    refine ⟨fun hlt => ⟨?_, ?_⟩, fun hlt => ⟨?_, ?_⟩, fun heq => ⟨?_, ?_⟩⟩
    · have hmem : t ∈ counterKeys host_counter :=
        mem_counterKeys_of_get_pos _ t (Nat.lt_of_le_of_lt (Nat.zero_le _) hlt)
      simp only [counter_delta]
      rw [hhost, if_pos ⟨hmem, hlt⟩]
    · simp only [counter_delta]
      rw [hguest, if_neg (fun hc => Nat.lt_asymm hlt hc.2)]
    · have hmem : t ∈ counterKeys guest_counter :=
        mem_counterKeys_of_get_pos _ t (Nat.lt_of_le_of_lt (Nat.zero_le _) hlt)
      simp only [counter_delta]
      rw [hguest, if_pos ⟨hmem, hlt⟩]
    · simp only [counter_delta]
      rw [hhost, if_neg (fun hc => Nat.lt_asymm hlt hc.2)]
    · simp only [counter_delta]
      rw [hhost, if_neg (fun hc => absurd hc.2 (by omega))]
    · simp only [counter_delta]
      rw [hguest, if_neg (fun hc => absurd hc.2 (by omega))]
  · decide

theorem counter_delta_entries_exact_witness :
    (counter_delta [([PyVal.int 1, PyVal.str "a"], 3)]
        [([PyVal.int 1, PyVal.str "a"], 1)] ["ID", "NAME"]).1.filter
        (fun e => decide (e.attributes =
          pyDict (["ID", "NAME"].zip [PyVal.int 1, PyVal.str "a"]))) =
      [DeltaEntry.mk 2 (pyDict (["ID", "NAME"].zip [PyVal.int 1, PyVal.str "a"]))] :=
  (((counter_delta_entries_exact [([PyVal.int 1, PyVal.str "a"], 3)]
      [([PyVal.int 1, PyVal.str "a"], 1)] ["ID", "NAME"]
      ⟨by decide, by decide⟩ ⟨by decide, by decide⟩ (by decide) (by decide)).1
      [PyVal.int 1, PyVal.str "a"] (by decide)).1 (by decide)).1

/-- C3: `_counter_delta` is symmetric in its two counter arguments — the
host-only output of `(H, G)` is exactly the guest-only output of `(G, H)`,
and vice versa. -/
theorem counter_delta_symmetric (H G : FCounter) (names : List String) :
    (counter_delta H G names).1 = (counter_delta G H names).2 ∧
    (counter_delta H G names).2 = (counter_delta G H names).1 :=
  ⟨rfl, rfl⟩

/-- C4 counterexample: permuting the host row stream changes the order of
the host-only list, so the outputs are not identical as lists. -/
theorem diff_reorder_counterexample :
    [[PyVal.int 1], [PyVal.int 2]].Perm [[PyVal.int 2], [PyVal.int 1]] ∧
    (counter_delta (buildCounter [[PyVal.int 1], [PyVal.int 2]])
        (buildCounter []) ["A"]).1 ≠
      (counter_delta (buildCounter [[PyVal.int 2], [PyVal.int 1]])
        (buildCounter []) ["A"]).1 := by
  decide

/-- C4 (amended): permuting the row stream on either side yields the same
host-only and guest-only entries up to order (the outputs are equal as
multisets; the host-only list order follows the host stream's
first-occurrence order, so it is not identical as a list). -/
theorem diff_reorder_perm_invariant
    (host_rows1 host_rows2 guest_rows1 guest_rows2 : List Tup)
    (names : List String)
    (hperm : host_rows1.Perm host_rows2) (gperm : guest_rows1.Perm guest_rows2) :
    (counter_delta (buildCounter host_rows1) (buildCounter guest_rows1)
        names).1.Perm
      (counter_delta (buildCounter host_rows2) (buildCounter guest_rows2)
        names).1 ∧
    (counter_delta (buildCounter host_rows1) (buildCounter guest_rows1)
        names).2.Perm
      (counter_delta (buildCounter host_rows2) (buildCounter guest_rows2)
        names).2 := by
  have hg := counterGet_buildCounter_congr guest_rows1 guest_rows2 gperm
  have hh := counterGet_buildCounter_congr host_rows1 host_rows2 hperm
  constructor
  · simp only [counter_delta]
    rw [hg]
    exact ((buildCounter_perm _ _ hperm).filter _).map _
  · simp only [counter_delta]
    rw [hh]
    exact ((buildCounter_perm _ _ gperm).filter _).map _

theorem diff_reorder_perm_invariant_witness :
    (counter_delta (buildCounter [[PyVal.int 1], [PyVal.int 2]])
        (buildCounter [[PyVal.int 3]]) ["A"]).1.Perm
      (counter_delta (buildCounter [[PyVal.int 2], [PyVal.int 1]])
        (buildCounter [[PyVal.int 3]]) ["A"]).1 ∧
    (counter_delta (buildCounter [[PyVal.int 1], [PyVal.int 2]])
        (buildCounter [[PyVal.int 3]]) ["A"]).2.Perm
      (counter_delta (buildCounter [[PyVal.int 2], [PyVal.int 1]])
        (buildCounter [[PyVal.int 3]]) ["A"]).2 :=
  diff_reorder_perm_invariant [[PyVal.int 1], [PyVal.int 2]]
    [[PyVal.int 2], [PyVal.int 1]] [[PyVal.int 3]] [[PyVal.int 3]] ["A"]
    (by decide) (by decide)

/-- C10: over well-formed counters whose keys match the field arity, every
emitted entry has a strictly positive count; the outputs are disjoint at
the tuple level — every host-only entry's attribute dict differs from
every guest-only entry's, so no value tuple has its reconstructed
attribute dict on both sides; and both lists are empty exactly when the
two counters agree as multisets (pointwise equal occurrence counts). -/
theorem counter_delta_disjoint_positive (host_counter guest_counter : FCounter)
    (field_names : List String)
    (hWh : CounterWF host_counter) (hWg : CounterWF guest_counter)
    (hnd : field_names.Nodup)
    (hlen : ∀ s ∈ counterKeys host_counter ++ counterKeys guest_counter,
      s.length = field_names.length) :
    (∀ e ∈ (counter_delta host_counter guest_counter field_names).1,
      0 < e.count) ∧
    (∀ e ∈ (counter_delta host_counter guest_counter field_names).2,
      0 < e.count) ∧
    (∀ e1 ∈ (counter_delta host_counter guest_counter field_names).1,
      ∀ e2 ∈ (counter_delta host_counter guest_counter field_names).2,
      e1.attributes ≠ e2.attributes) ∧
    (∀ t : Tup,
      ¬ ((∃ e1 ∈ (counter_delta host_counter guest_counter field_names).1,
          e1.attributes = pyDict (field_names.zip t)) ∧
        (∃ e2 ∈ (counter_delta host_counter guest_counter field_names).2,
          e2.attributes = pyDict (field_names.zip t)))) ∧
    (((counter_delta host_counter guest_counter field_names).1 = [] ∧
      (counter_delta host_counter guest_counter field_names).2 = []) ↔
      ∀ t, counterGet host_counter t = counterGet guest_counter t) := by
  have hdisj : ∀ e1 ∈ (counter_delta host_counter guest_counter field_names).1,
      ∀ e2 ∈ (counter_delta host_counter guest_counter field_names).2,
      e1.attributes ≠ e2.attributes := by
    intro e1 he1 e2 he2 hattr
    simp only [counter_delta, List.mem_map, List.mem_filter,
      decide_eq_true_eq] at he1 he2
    obtain ⟨p, ⟨hpmem, hplt⟩, hpe⟩ := he1
    obtain ⟨q, ⟨hqmem, hqlt⟩, hqe⟩ := he2
    have hattr2 : pyDict (field_names.zip p.1) = pyDict (field_names.zip q.1) := by
      rw [← hpe, ← hqe] at hattr
      exact hattr
    have hp1 : p.1.length = field_names.length :=
      hlen p.1 (List.mem_append.mpr (Or.inl (List.mem_map.mpr ⟨p, hpmem, rfl⟩)))
    have hq1 : q.1.length = field_names.length :=
      hlen q.1 (List.mem_append.mpr (Or.inr (List.mem_map.mpr ⟨q, hqmem, rfl⟩)))
    have hkey : p.1 = q.1 := pyDict_zip_inj field_names hnd p.1 q.1 hp1 hq1 hattr2
    have hpv := ((mem_counter_iff _ hWh p).mp hpmem).2
    have hqv := ((mem_counter_iff _ hWg q).mp hqmem).2
    rw [hkey] at hplt hpv
    omega
  refine ⟨?_, ?_, hdisj, ?_, ?_⟩
  · intro e he
    simp only [counter_delta, List.mem_map, List.mem_filter,
      decide_eq_true_eq] at he
    obtain ⟨p, ⟨_, hlt⟩, rfl⟩ := he
    simpa using hlt
  · intro e he
    simp only [counter_delta, List.mem_map, List.mem_filter,
      decide_eq_true_eq] at he
    obtain ⟨p, ⟨_, hlt⟩, rfl⟩ := he
    simpa using hlt
  · rintro t ⟨⟨e1, he1, ha1⟩, ⟨e2, he2, ha2⟩⟩
    exact hdisj e1 he1 e2 he2 (ha1.trans ha2.symm)
  · constructor
    · rintro ⟨h1, h2⟩ t
      have hle1 := (counter_delta_fst_empty_iff host_counter guest_counter
        field_names hWh).mp h1 t
      have hle2 := (counter_delta_fst_empty_iff guest_counter host_counter
        field_names hWg).mp h2 t
      omega
    · intro heq
      have := counter_delta_empty_of_get_eq host_counter guest_counter
        field_names hWh hWg heq
      rw [Prod.ext_iff] at this
      exact this

theorem counter_delta_disjoint_positive_witness :
    (∀ e ∈ (counter_delta [([PyVal.int 1], 2)] [([PyVal.int 2], 1)] ["A"]).1,
      0 < e.count) ∧
    (∀ e ∈ (counter_delta [([PyVal.int 1], 2)] [([PyVal.int 2], 1)] ["A"]).2,
      0 < e.count) ∧
    (∀ e1 ∈ (counter_delta [([PyVal.int 1], 2)] [([PyVal.int 2], 1)] ["A"]).1,
      ∀ e2 ∈ (counter_delta [([PyVal.int 1], 2)] [([PyVal.int 2], 1)] ["A"]).2,
      e1.attributes ≠ e2.attributes) ∧
    (∀ t : Tup,
      ¬ ((∃ e1 ∈ (counter_delta [([PyVal.int 1], 2)] [([PyVal.int 2], 1)] ["A"]).1,
          e1.attributes = pyDict (["A"].zip t)) ∧
        (∃ e2 ∈ (counter_delta [([PyVal.int 1], 2)] [([PyVal.int 2], 1)] ["A"]).2,
          e2.attributes = pyDict (["A"].zip t)))) ∧
    (((counter_delta [([PyVal.int 1], 2)] [([PyVal.int 2], 1)] ["A"]).1 = [] ∧
      (counter_delta [([PyVal.int 1], 2)] [([PyVal.int 2], 1)] ["A"]).2 = []) ↔
      ∀ t, counterGet [([PyVal.int 1], 2)] t = counterGet [([PyVal.int 2], 1)] t) :=
  counter_delta_disjoint_positive [([PyVal.int 1], 2)] [([PyVal.int 2], 1)] ["A"]
    ⟨by decide, by decide⟩ ⟨by decide, by decide⟩ (by decide) (by decide)

theorem pagedRows_eq_drop (rows : List AttrDict) (chunk_size : Nat)
    (hc : 0 < chunk_size) (offset : Nat) :
    pagedRows rows chunk_size offset = rows.drop offset := by
  have H : ∀ n offset, rows.length - offset ≤ n →
      pagedRows rows chunk_size offset = rows.drop offset := by
    intro n
    induction n with
    | zero =>
      intro offset h0
      have hnil : rows.drop offset = [] :=
        List.drop_eq_nil_of_le (by omega)
      rw [pagedRows]
      rw [hnil]
      simp
    | succ n ih =>
      intro offset h
      rw [pagedRows]
      by_cases hz : ((rows.drop offset).take chunk_size).length = 0
      · rw [if_pos hz]
        rcases List.take_eq_nil_iff.mp (List.length_eq_zero.mp hz) with hc0 | hnil
        · omega
        · rw [hnil]
      · rw [if_neg hz]
        by_cases hshort : ((rows.drop offset).take chunk_size).length < chunk_size
        · rw [if_pos hshort]
          have hlen : (rows.drop offset).length < chunk_size := by
            rw [List.length_take] at hshort
            omega
          exact List.take_of_length_le (le_of_lt hlen)
        · rw [if_neg hshort]
          have hlen : ((rows.drop offset).take chunk_size).length = chunk_size := by
            rw [List.length_take] at hshort ⊢
            omega
          have hrest : chunk_size ≤ (rows.drop offset).length := by
            rw [List.length_take] at hlen
            omega
          rw [hlen]
          have hrec : pagedRows rows chunk_size (offset + chunk_size) =
              rows.drop (offset + chunk_size) := by
            apply ih
            have : offset < rows.length := by
              rw [List.length_drop] at hrest
              omega
            omega
          rw [hrec, ← List.drop_drop]
          exact List.take_append_drop chunk_size (rows.drop offset)
  exact H (rows.length - offset) offset le_rfl

theorem iterTuples_chunk_irrelevant (layer : RecLayer)
    (field_names : List String) (chunk_size : Nat) :
    iterTuples layer field_names chunk_size = iterTuples layer field_names 0 := by
  unfold iterTuples
  by_cases h0 : field_names = []
  · rw [if_pos h0, if_pos h0]
  · rw [if_neg h0, if_neg h0]
    by_cases hcf : cleanFields field_names = []
    · rw [if_pos hcf, if_pos hcf]
    · rw [if_neg hcf, if_neg hcf]
      have hfeats :
          (if layer.supportsPagination ∧ 0 < chunk_size then
            pagedRows layer.rows chunk_size 0
          else layer.rows) = layer.rows := by
        by_cases hp : layer.supportsPagination ∧ 0 < chunk_size
        · rw [if_pos hp]
          rw [pagedRows_eq_drop layer.rows chunk_size hp.2 0]
          simp
        · rw [if_neg hp]
      rw [hfeats]
      have : ¬ (layer.supportsPagination ∧ (0 : Nat) < 0) := by
        rintro ⟨_, h⟩
        exact absurd h (by omega)
      rw [if_neg this]

/-- C5: when host and guest layers hold the identical multiset of projected
rows, the composition of tuple streaming, counter building and delta yields
empty host-only and guest-only lists for every chunk size; indeed the
paginated fetch path at any positive chunk size streams exactly the same
tuple list as the single unbounded fetch, so both sides build the same
counters regardless of chunk size. -/
theorem diff_records_chunk_refinement (host_layer guest_layer : RecLayer)
    (canonical_order : List String) (host_field_map guest_field_map : String → String)
    (names : List String) (chunk_size : Nat)
    (hperm : (iterTuples host_layer (canonical_order.map host_field_map) 0).Perm
      (iterTuples guest_layer (canonical_order.map guest_field_map) 0)) :
    iterTuples host_layer (canonical_order.map host_field_map) chunk_size =
      iterTuples host_layer (canonical_order.map host_field_map) 0 ∧
    iterTuples guest_layer (canonical_order.map guest_field_map) chunk_size =
      iterTuples guest_layer (canonical_order.map guest_field_map) 0 ∧
    counter_delta
      (build_feature_counter host_layer canonical_order host_field_map chunk_size)
      (build_feature_counter guest_layer canonical_order guest_field_map chunk_size)
      names = ([], []) := by
  refine ⟨iterTuples_chunk_irrelevant _ _ _, iterTuples_chunk_irrelevant _ _ _, ?_⟩
  unfold build_feature_counter
  rw [iterTuples_chunk_irrelevant host_layer, iterTuples_chunk_irrelevant guest_layer]
  apply counter_delta_empty_of_get_eq _ _ _
    (counterWF_buildCounter _) (counterWF_buildCounter _)
  intro t
  rw [counterGet_buildCounter, counterGet_buildCounter]
  unfold tupCount
  exact hperm.countP_eq _

theorem diff_records_chunk_refinement_witness :
    iterTuples (RecLayer.mk Option.none Option.none Option.none Option.none
        Option.none true [[("A", PyVal.int 1)], [("A", PyVal.int 2)]] Option.none)
        (["A"].map id) 1 =
      iterTuples (RecLayer.mk Option.none Option.none Option.none Option.none
        Option.none true [[("A", PyVal.int 1)], [("A", PyVal.int 2)]] Option.none)
        (["A"].map id) 0 ∧
    iterTuples (RecLayer.mk Option.none Option.none Option.none Option.none
        Option.none false [[("A", PyVal.int 2)], [("A", PyVal.int 1)]] Option.none)
        (["A"].map id) 1 =
      iterTuples (RecLayer.mk Option.none Option.none Option.none Option.none
        Option.none false [[("A", PyVal.int 2)], [("A", PyVal.int 1)]] Option.none)
        (["A"].map id) 0 ∧
    counter_delta
      (build_feature_counter (RecLayer.mk Option.none Option.none Option.none
        Option.none Option.none true [[("A", PyVal.int 1)], [("A", PyVal.int 2)]]
        Option.none) ["A"] id 1)
      (build_feature_counter (RecLayer.mk Option.none Option.none Option.none
        Option.none Option.none false [[("A", PyVal.int 2)], [("A", PyVal.int 1)]]
        Option.none) ["A"] id 1)
      ["A"] = ([], []) :=
  diff_records_chunk_refinement
    (RecLayer.mk Option.none Option.none Option.none Option.none Option.none true
      [[("A", PyVal.int 1)], [("A", PyVal.int 2)]] Option.none)
    (RecLayer.mk Option.none Option.none Option.none Option.none Option.none false
      [[("A", PyVal.int 2)], [("A", PyVal.int 1)]] Option.none)
    ["A"] id id ["A"] 1 (by decide)

/-- C2: for a layer present on both sides, the entry status is `"ok"` iff
the two fetched counts are equal as optional values (a failed fetch
degrades the operand to `None`, and `None` equals only `None`) and,
whenever both last-edit timestamps are known, the timestamps are equal;
in every other case the status is `"mismatch"`. -/
theorem compare_entry_status_ok_iff (hc gc ht gt : Option Int) :
    (compare_entry_status hc gc ht gt = "ok" ↔
      hc = gc ∧ (ht ≠ Option.none → gt ≠ Option.none → ht = gt)) ∧
    (compare_entry_status hc gc ht gt = "ok" ∨
      compare_entry_status hc gc ht gt = "mismatch") := by
  unfold compare_entry_status
  by_cases h : hc = gc ∧ (ht = Option.none ∨ gt = Option.none ∨ ht = gt)
  · rw [if_pos h]
    refine ⟨⟨fun _ => ⟨h.1, fun hn gn => ?_⟩, fun _ => rfl⟩, Or.inl rfl⟩
    rcases h.2 with h1 | h2 | h3
    · exact absurd h1 hn
    · exact absurd h2 gn
    · exact h3
  · rw [if_neg h]
    refine ⟨⟨fun habs => absurd habs (by decide), fun hok => ?_⟩, Or.inr rfl⟩
    exfalso
    apply h
    refine ⟨hok.1, ?_⟩
    by_cases hn : ht = Option.none
    · exact Or.inl hn
    by_cases gn : gt = Option.none
    · exact Or.inr (Or.inl gn)
    · exact Or.inr (Or.inr (hok.2 hn gn))

/-- C7: when the exclusion rules empty the comparable list of a layer that
does have non-empty field metadata, the reconciler falls back to the
declared object-id field alone, so the result is the non-empty singleton
of that field; when the layer has no (or empty) field metadata the result
is empty, and so is it when the fallback finds no truthy object-id field. -/
theorem comparable_fields_fallback (layer : RecLayer)
    (extra_ignored : List String) :
    (∀ fm, layer.fieldsMeta = some fm → fm ≠ [] →
      filteredComparable layer extra_ignored = [] →
      (∀ oid, layer.objectIdField = some oid → oid ≠ "" →
        get_comparable_fields layer extra_ignored = [oid]) ∧
      ((layer.objectIdField = Option.none ∨ layer.objectIdField = some "") →
        get_comparable_fields layer extra_ignored = [])) ∧
    (layer.fieldsMeta = Option.none →
      get_comparable_fields layer extra_ignored = []) ∧
    (layer.fieldsMeta = some [] →
      get_comparable_fields layer extra_ignored = []) := by
  refine ⟨?_, ?_, ?_⟩
  · intro fm hfm hne hemp
    constructor
    · intro oid hoid hoe
      simp only [get_comparable_fields, hfm, if_neg hne, hemp, if_pos rfl, hoid,
        if_neg hoe]
      simp
    · rintro (hnone | hempty)
      · simp only [get_comparable_fields, hfm, if_neg hne, hemp, if_pos rfl, hnone]
        simp
      · simp only [get_comparable_fields, hfm, if_neg hne, hemp, if_pos rfl, hempty,
          if_pos rfl]
        simp
  · intro hnone
    simp only [get_comparable_fields, hnone]
  · intro hempty
    simp only [get_comparable_fields, hempty, if_pos rfl]
    simp

theorem comparable_fields_fallback_witness :
    get_comparable_fields
      (RecLayer.mk
        (some [FieldMeta.mk (some "OBJECTID") (some "esriFieldTypeOID"),
               FieldMeta.mk (some "Shape") (some "esriFieldTypeGeometry")])
        (some "OBJECTID") Option.none Option.none Option.none false [] Option.none)
      [] = ["OBJECTID"] :=
  ((comparable_fields_fallback
      (RecLayer.mk
        (some [FieldMeta.mk (some "OBJECTID") (some "esriFieldTypeOID"),
               FieldMeta.mk (some "Shape") (some "esriFieldTypeGeometry")])
        (some "OBJECTID") Option.none Option.none Option.none false [] Option.none)
      []).1
    [FieldMeta.mk (some "OBJECTID") (some "esriFieldTypeOID"),
     FieldMeta.mk (some "Shape") (some "esriFieldTypeGeometry")]
    rfl (by decide) (by decide)).1 "OBJECTID" rfl (by decide)

/-- C6: when at least one host comparable field has no case-insensitive
match among the guest comparable fields, the layer entry is exactly the
error record carrying the missing host field names (no counts, no
host-only/guest-only components), and the outcome is independent of both
layers' row data and count-query results — no record query contributes to
the entry. -/
theorem missing_fields_error_entry (host_layer guest_layer : RecLayer)
    (ignore_fields_set : List String) (chunk_size_val : Nat)
    (hmiss : missingFields (get_comparable_fields host_layer ignore_fields_set)
      (get_comparable_fields guest_layer ignore_fields_set) ≠ []) :
    compareLayerRecords host_layer guest_layer ignore_fields_set chunk_size_val =
      { status := "error"
        message := some "Host fields missing on guest layer"
        missing_fields_on_guest :=
          some (missingFields
            (get_comparable_fields host_layer ignore_fields_set)
            (get_comparable_fields guest_layer ignore_fields_set)) } ∧
    (∀ (rows1 rows2 : List AttrDict) (tc1 tc2 : Option Int),
      compareLayerRecords { host_layer with rows := rows1, totalCount := tc1 }
        { guest_layer with rows := rows2, totalCount := tc2 }
        ignore_fields_set chunk_size_val =
      compareLayerRecords host_layer guest_layer ignore_fields_set
        chunk_size_val) := by
  constructor
  · simp only [compareLayerRecords]
    rw [if_pos hmiss]
  · intro rows1 rows2 tc1 tc2
    have e1 : get_comparable_fields
        { host_layer with rows := rows1, totalCount := tc1 } ignore_fields_set =
        get_comparable_fields host_layer ignore_fields_set := rfl
    have e2 : get_comparable_fields
        { guest_layer with rows := rows2, totalCount := tc2 } ignore_fields_set =
        get_comparable_fields guest_layer ignore_fields_set := rfl
    simp only [compareLayerRecords, e1, e2]
    rw [if_pos hmiss, if_pos hmiss]

/-- The missing-field scenario host layer: comparable fields ID and STATUS. -/
def hostLayerM : RecLayer :=
  RecLayer.mk (some [FieldMeta.mk (some "ID") (some "esriFieldTypeInteger"),
    FieldMeta.mk (some "STATUS") (some "esriFieldTypeString")])
    (some "OBJECTID") Option.none Option.none Option.none false [] Option.none

/-- The missing-field scenario guest layer: comparable field ID only. -/
def guestLayerM : RecLayer :=
  RecLayer.mk (some [FieldMeta.mk (some "ID") (some "esriFieldTypeInteger")])
    (some "OBJECTID") Option.none Option.none Option.none false [] Option.none

theorem missing_fields_error_entry_witness :
    compareLayerRecords hostLayerM guestLayerM [] 2000 =
      { status := "error"
        message := some "Host fields missing on guest layer"
        missing_fields_on_guest :=
          some (missingFields
            (get_comparable_fields hostLayerM [])
            (get_comparable_fields guestLayerM [])) } ∧
    (∀ (rows1 rows2 : List AttrDict) (tc1 tc2 : Option Int),
      compareLayerRecords { hostLayerM with rows := rows1, totalCount := tc1 }
        { guestLayerM with rows := rows2, totalCount := tc2 } [] 2000 =
      compareLayerRecords hostLayerM guestLayerM [] 2000) :=
  missing_fields_error_entry hostLayerM guestLayerM [] 2000 (by decide)

/-- The pairing scenario host item A. -/
def itemA : PortalItem :=
  PortalItem.mk "h1" "Parcels" "Feature Service" []

/-- The pairing scenario guest item B: a different title, but origin-id
metadata equal to A's id under a recognized property name. -/
def itemB : PortalItem :=
  PortalItem.mk "g9" "Parcels Copy" "Feature Service" [("originItemID", "h1")]

/-- C8: a host item whose id has an origin-id match among the guest items
is paired with that matched guest item, and changing the host item's title
does not change the pair; the `(title, type)` fallback map is consulted
only for host items with no origin-id match; in the scenario with host
item A and guest item B carrying origin-id = A's id, the pairing returns
exactly the single pair (A, B). -/
theorem pairing_origin_priority (gs : List PortalItem) (hi : PortalItem)
    (gi : PortalItem)
    (horigin : dictGetLast (guestByOrigin gs) hi.itemId = some gi) :
    resolveHostItem (guestByOrigin gs) (guestByKey gs) hi = some (hi, gi) ∧
    (∀ t : String, resolveHostItem (guestByOrigin gs) (guestByKey gs)
      { hi with title := t } = some ({ hi with title := t }, gi)) ∧
    (∀ hj : PortalItem, dictGetLast (guestByOrigin gs) hj.itemId = Option.none →
      resolveHostItem (guestByOrigin gs) (guestByKey gs) hj =
        (dictGetLast (guestByKey gs) (hj.title, hj.itype)).map
          (fun gj => (hj, gj))) ∧
    (∀ gj ∈ gs, extract_origin_host_id gj = some hi.itemId →
      (dictGetLast (guestByOrigin gs) hi.itemId).isSome = true) ∧
    pair_items_in_groups [itemA] [itemB] true = [(itemA, itemB)] := by
  refine ⟨?_, ?_, ?_, ?_, ?_⟩
  · unfold resolveHostItem
    rw [horigin]
  · intro t
    unfold resolveHostItem
    have hid : ({ hi with title := t } : PortalItem).itemId = hi.itemId := rfl
    rw [hid, horigin]
  · intro hj hnone
    unfold resolveHostItem
    rw [hnone]
  · intro gj hgj hor
    unfold dictGetLast
    have hmem : ((hi.itemId, gj) : String × PortalItem) ∈
        (guestByOrigin gs).reverse := by
      rw [List.mem_reverse]
      unfold guestByOrigin
      exact List.mem_filterMap.mpr ⟨gj, hgj, by rw [hor]; rfl⟩
    have hfind : (((guestByOrigin gs).reverse).find?
        (fun p => decide (p.1 = hi.itemId))).isSome = true := by
      rw [List.find?_isSome]
      exact ⟨(hi.itemId, gj), hmem, by simp⟩
    obtain ⟨x, hx⟩ := Option.isSome_iff_exists.mp hfind
    rw [hx]
    rfl
  · decide

theorem pairing_origin_priority_witness :
    resolveHostItem (guestByOrigin [itemB]) (guestByKey [itemB]) itemA =
      some (itemA, itemB) ∧
    (∀ t : String, resolveHostItem (guestByOrigin [itemB]) (guestByKey [itemB])
      { itemA with title := t } = some ({ itemA with title := t }, itemB)) ∧
    (∀ hj : PortalItem,
      dictGetLast (guestByOrigin [itemB]) hj.itemId = Option.none →
      resolveHostItem (guestByOrigin [itemB]) (guestByKey [itemB]) hj =
        (dictGetLast (guestByKey [itemB]) (hj.title, hj.itype)).map
          (fun gj => (hj, gj))) ∧
    (∀ gj ∈ [itemB], extract_origin_host_id gj = some itemA.itemId →
      (dictGetLast (guestByOrigin [itemB]) itemA.itemId).isSome = true) ∧
    pair_items_in_groups [itemA] [itemB] true = [(itemA, itemB)] :=
  pairing_origin_priority [itemB] itemA itemB (by decide)

/-- C9 counterexample: with every caller parameter at its default (where
clause `"1=1"`, chunk size 2000, empty ignore set, no layer-key filter)
the top-level result dict still carries the `where` and `chunk_size` keys,
so those two keys are not conditional on non-default parameters. -/
theorem record_payload_default_keys_counterexample :
    "where" ∈ recordResultKeys [] Option.none ∧
    "chunk_size" ∈ recordResultKeys [] Option.none := by
  decide

/-- C9 (amended): the top-level record-comparison result dict always
carries `where` and `chunk_size`; it carries `ignored_fields` exactly when
the ignore set is non-empty and `layer_keys` exactly when a truthy (given
and non-empty) layer-key list was passed. -/
theorem record_payload_keys (ignore_fields_set : List String)
    (layer_keys : Option (List String)) :
    "where" ∈ recordResultKeys ignore_fields_set layer_keys ∧
    "chunk_size" ∈ recordResultKeys ignore_fields_set layer_keys ∧
    ("ignored_fields" ∈ recordResultKeys ignore_fields_set layer_keys ↔
      ignore_fields_set ≠ []) ∧
    ("layer_keys" ∈ recordResultKeys ignore_fields_set layer_keys ↔
      ∃ ks, layer_keys = some ks ∧ ks ≠ []) := by
  have hshape : recordResultKeys ignore_fields_set layer_keys =
      ["status", "host_item_id", "guest_item_id", "title", "host_url",
       "guest_url", "where", "layers", "tables", "chunk_size"] ++
      (if ignore_fields_set ≠ [] then ["ignored_fields"] else []) ++
      (match layer_keys with
       | some ks => if ks ≠ [] then ["layer_keys"] else []
       | Option.none => []) := by
    unfold recordResultKeys record_result_payload
    rw [List.map_append, List.map_append]
    congr 1
    congr 1
    · by_cases hig : ignore_fields_set ≠ []
      · rw [if_pos hig, if_pos hig]
        rfl
      · rw [if_neg hig, if_neg hig]
        rfl
    · cases layer_keys with
      | none => rfl
      | some ks =>
        show List.map (fun p => p.1) (if ks ≠ [] then
            [("layer_keys", RValue.strList ks)] else []) =
          if ks ≠ [] then ["layer_keys"] else []
        by_cases hks : ks ≠ []
        · rw [if_pos hks, if_pos hks]
          rfl
        · rw [if_neg hks, if_neg hks]
          rfl
  rw [hshape]
  cases layer_keys with
  | none =>
    show _ ∈ _ ++ _ ++ ([] : List String) ∧ _ ∈ _ ++ _ ++ ([] : List String) ∧
      (_ ∈ _ ++ _ ++ ([] : List String) ↔ _) ∧
      (_ ∈ _ ++ _ ++ ([] : List String) ↔ _)
    by_cases hig : ignore_fields_set ≠ []
    · rw [if_pos hig]
      refine ⟨by decide, by decide, ⟨fun _ => hig, fun _ => by decide⟩, ?_⟩
      constructor
      · intro h
        exact absurd h (by decide)
      · rintro ⟨ks, hk, _⟩
        cases hk
    · rw [if_neg hig]
      refine ⟨by decide, by decide, ⟨fun h => absurd h (by decide), fun h => absurd h hig⟩, ?_⟩
      constructor
      · intro h
        exact absurd h (by decide)
      · rintro ⟨ks, hk, _⟩
        cases hk
  | some ks =>
    show _ ∈ _ ++ _ ++ (if ks ≠ [] then ["layer_keys"] else []) ∧
      _ ∈ _ ++ _ ++ (if ks ≠ [] then ["layer_keys"] else []) ∧
      (_ ∈ _ ++ _ ++ (if ks ≠ [] then ["layer_keys"] else []) ↔ _) ∧
      (_ ∈ _ ++ _ ++ (if ks ≠ [] then ["layer_keys"] else []) ↔ _)
    by_cases hks : ks ≠ []
    · rw [if_pos hks]
      by_cases hig : ignore_fields_set ≠ []
      · rw [if_pos hig]
        exact ⟨by decide, by decide, ⟨fun _ => hig, fun _ => by decide⟩,
          ⟨fun _ => ⟨ks, rfl, hks⟩, fun _ => by decide⟩⟩
      · rw [if_neg hig]
        exact ⟨by decide, by decide,
          ⟨fun h => absurd h (by decide), fun h => absurd h hig⟩,
          ⟨fun _ => ⟨ks, rfl, hks⟩, fun _ => by decide⟩⟩
    · rw [if_neg hks]
      by_cases hig : ignore_fields_set ≠ []
      · rw [if_pos hig]
        refine ⟨by decide, by decide, ⟨fun _ => hig, fun _ => by decide⟩, ?_⟩
        constructor
        · intro h
          exact absurd h (by decide)
        · rintro ⟨ks', hk, hne⟩
          injection hk with hk
          exact absurd (hk ▸ (not_not.mp hks)) hne
      · rw [if_neg hig]
        refine ⟨by decide, by decide,
          ⟨fun h => absurd h (by decide), fun h => absurd h hig⟩, ?_⟩
        constructor
        · intro h
          exact absurd h (by decide)
        · rintro ⟨ks', hk, hne⟩
          injection hk with hk
          exact absurd (hk ▸ (not_not.mp hks)) hne
